import Mathlib

/-!
Shallow embedding of the mio-based "pong" echo server (`src/mio.rs`).

Bytes are modelled as `Nat` (the values stored in `Vec<u8>`); the line
terminator `b'\n'` is the byte `10`.  Fallible/panicking Rust code is
modelled with `Except String`: a `panic!` or failed `assert!`/`unwrap`
becomes `Except.error msg`.  The socket is external to the program, so a
non-blocking read/write attempt is modelled by an outcome value chosen by
the environment (`ReadOutcome` / `WriteOutcome`).
-/

namespace PongServer

/-- The line terminator byte, `b'\n'` in the Rust source. -/
def newline : Nat := 10

/-- Models `Iterator::position` as used in `self.read_buf().iter().position(|b| *b == b'\n')`:
the index of the first occurrence of `b` in `l`, if any. -/
def position (l : List Nat) (b : Nat) : Option Nat :=
  match l with
  | [] => none
  | a :: t => if a = b then some 0 else (position t b).map (· + 1)

/-- Models the `Take<Cursor<Vec<u8>>>` write buffer of the `Writing` state:
`buf` is the underlying `Vec<u8>`, `pos` the cursor position (bytes already
consumed), `limit` the remaining `Take` limit. -/
structure TakeCursor where
  buf : List Nat
  pos : Nat
  limit : Nat
deriving Repr, DecidableEq

/-- `Buf::remaining` for the `Take<Cursor<Vec<u8>>>`: the cursor has
`buf.length - pos` bytes left and the take caps it at `limit`. -/
def TakeCursor.remaining (w : TakeCursor) : Nat :=
  min (w.buf.length - w.pos) w.limit

/-- `Buf::has_remaining` for the write buffer. -/
def TakeCursor.has_remaining (w : TakeCursor) : Bool :=
  decide (0 < w.remaining)

/-- `Take::advance` composed with the cursor advance, as performed by
`try_write_buf` after the socket accepted `cnt0` bytes: the advance is
clamped by the take limit, and the cursor position by the buffer length. -/
def TakeCursor.advance (w : TakeCursor) (cnt0 : Nat) : TakeCursor :=
  let cnt := min cnt0 w.limit
  { buf := w.buf, pos := min (w.pos + cnt) w.buf.length, limit := w.limit - cnt }

/-- Each connection can be in one of three states: `Reading` what the client
sends, `Writing` back to the client, or `Closed` (Rust enum `State`). -/
inductive State where
  | Reading (buf : List Nat)
  | Writing (w : TakeCursor)
  | Closed
deriving Repr, DecidableEq

/-- `State::read_buf` (also standing for `mut_read_buf` and
`unwrap_read_buf`, which differ only in Rust ownership): the reading buffer,
panicking unless in the `Reading` state. -/
def State.read_buf : State → Except String (List Nat)
  | State.Reading buf => Except.ok buf
  | _ => Except.error "Connection not readable"

/-- `State::write_buf` (also standing for `mut_write_buf` and
`unwrap_write_buf`): the writing buffer, panicking unless in the `Writing`
state. -/
def State.write_buf : State → Except String TakeCursor
  | State.Writing w => Except.ok w
  | _ => Except.error "Connection not writeable"

/-- `State::transition_to_writing`: consumes the reading buffer and becomes
`Writing(Take::new(Cursor::new(buf), pos))` — cursor at 0, take limit `pos`. -/
def State.transition_to_writing (s : State) (pos : Nat) : Except String State :=
  (s.read_buf).map (fun buf => State.Writing ⟨buf, 0, pos⟩)

/-- `State::try_transition_to_writing`: looks for a newline in the reading
buffer; if found at index `pos`, transitions to `Writing` over the first
`pos + 1` bytes, otherwise leaves the state unchanged. -/
def State.try_transition_to_writing (s : State) : Except String State :=
  match s.read_buf with
  | Except.error e => Except.error e
  | Except.ok buf =>
    match position buf newline with
    | some pos => s.transition_to_writing (pos + 1)
    | none => Except.ok s

/-- `State::try_transition_to_reading`: if nothing remains in the write
buffer, drop the `pos` flushed bytes from the front of the vector (the Rust
`for _ in 0..pos { buf.remove(0); }` loop), become `Reading` with the
leftover bytes and immediately retry the transition to `Writing`. -/
def State.try_transition_to_reading (s : State) : Except String State :=
  match s.write_buf with
  | Except.error e => Except.error e
  | Except.ok w =>
    if w.has_remaining then Except.ok s
    else
      (State.Reading (w.buf.drop w.pos)).try_transition_to_writing

/-- `State::is_closed`. -/
def State.is_closed : State → Bool
  | State.Closed => true
  | _ => false

/-- The subset of `mio::EventSet` the program inspects. -/
structure EventSet where
  readable : Bool
  writable : Bool
deriving Repr, DecidableEq

/-- `mio::EventSet::is_readable`. -/
def EventSet.is_readable (e : EventSet) : Bool := e.readable

/-- `mio::EventSet::is_writable`. -/
def EventSet.is_writable (e : EventSet) : Bool := e.writable

/-- `mio::EventSet::readable()`. -/
def EventSet.readableSet : EventSet := ⟨true, false⟩

/-- `mio::EventSet::writable()`. -/
def EventSet.writableSet : EventSet := ⟨false, true⟩

/-- `mio::EventSet::none()`. -/
def EventSet.noneSet : EventSet := ⟨false, false⟩

/-- Environment outcome of `socket.try_read_buf(...)`:
`bytes bs` is `Ok(Some(bs.length))` with `bs` appended to the buffer (so
`bytes []` is `Ok(Some(0))`, end-of-stream), `wouldBlock` is `Ok(None)`,
`ioError e` is `Err(e)`. -/
inductive ReadOutcome where
  | bytes (bs : List Nat)
  | wouldBlock
  | ioError (e : String)
deriving Repr, DecidableEq

/-- Environment outcome of `socket.try_write_buf(...)`:
`wrote k` is `Ok(Some(k))` (the socket accepted `k` bytes of the slice it
was offered), `wouldBlock` is `Ok(None)`, `ioError e` is `Err(e)`. -/
inductive WriteOutcome where
  | wrote (k : Nat)
  | wouldBlock
  | ioError (e : String)
deriving Repr, DecidableEq

/-- A client connection: its slab token and protocol state.  The socket
itself is external to the model (its behavior enters through the outcome
values). -/
structure Connection where
  token : Nat
  state : State
deriving Repr, DecidableEq

/-- `Connection::new`: a fresh connection starts in `Reading` with an empty
buffer. -/
def Connection.new (token : Nat) : Connection :=
  ⟨token, State.Reading []⟩

/-- `Connection::is_closed`. -/
def Connection.is_closed (c : Connection) : Bool :=
  c.state.is_closed

/-- `Connection::get_event_set`: the readiness kind the connection wants,
from its state. -/
def Connection.get_event_set (c : Connection) : EventSet :=
  match c.state with
  | State.Reading _ => EventSet.readableSet
  | State.Writing _ => EventSet.writableSet
  | State.Closed => EventSet.noneSet

/-- `Connection::read`: `try_read_buf` into the reading buffer (panics via
`mut_read_buf` when not `Reading`), then dispatch on the outcome exactly as
the Rust `match`: `Ok(Some(0))` flushes a non-empty buffer whole or closes
an empty one; `Ok(Some(n))` with `n > 0` tries the transition to `Writing`;
`Ok(None)` only re-registers; `Err` panics.  Returns the updated connection
and the number of `reregister` calls performed. -/
def Connection.read (c : Connection) (r : ReadOutcome) : Except String (Connection × Nat) :=
  match c.state.read_buf with
  | Except.error e => Except.error e
  | Except.ok buf =>
    match r with
    | ReadOutcome.bytes bs =>
      if bs.length = 0 then
        if (buf ++ bs).length > 0 then
          match ((State.Reading (buf ++ bs)).transition_to_writing (buf ++ bs).length) with
          | Except.error e => Except.error e
          | Except.ok st2 => Except.ok ({ c with state := st2 }, 1)
        else
          Except.ok ({ c with state := State.Closed }, 0)
      else
        match (State.Reading (buf ++ bs)).try_transition_to_writing with
        | Except.error e => Except.error e
        | Except.ok st2 => Except.ok ({ c with state := st2 }, 1)
    | ReadOutcome.wouldBlock => Except.ok (c, 1)
    | ReadOutcome.ioError e => Except.error ("Connection reading error: " ++ e)

/-- `Connection::write`: `try_write_buf` of the write buffer (panics via
`mut_write_buf` when not `Writing`).  On `Ok(Some(k))` the socket accepted
`k` bytes of the offered slice (the cursor remainder capped by the take
limit); the buffer is advanced and `try_transition_to_reading` runs; then a
re-registration.  `Ok(None)` only re-registers; `Err` panics.  Returns the
updated connection, the bytes actually written to the socket, and the
number of `reregister` calls. -/
def Connection.write (c : Connection) (r : WriteOutcome) : Except String (Connection × List Nat × Nat) :=
  match c.state.write_buf with
  | Except.error e => Except.error e
  | Except.ok w =>
    match r with
    | WriteOutcome.wrote k =>
      match (State.Writing (w.advance k)).try_transition_to_reading with
      | Except.error e => Except.error e
      | Except.ok st2 =>
        Except.ok ({ c with state := st2 }, ((w.buf.drop w.pos).take w.limit).take k, 1)
    | WriteOutcome.wouldBlock => Except.ok (c, [], 1)
    | WriteOutcome.ioError e => Except.error ("Connection writing error: " ++ e)

/-- `Connection::ready`: dispatch on the current state, asserting that the
event matches (`assert!(events.is_readable())` / `is_writable`), and panic
(`"Unexpected state."`) on `Closed`.  The environment outcomes for a read
attempt and a write attempt are passed in; the one matching the state is
used.  Returns the updated connection, bytes written, and `reregister`
count. -/
def Connection.ready (c : Connection) (events : EventSet) (rr : ReadOutcome)
    (wr : WriteOutcome) : Except String (Connection × List Nat × Nat) :=
  match c.state with
  | State.Reading _ =>
    if events.is_readable then
      match c.read rr with
      | Except.error e => Except.error e
      | Except.ok (c2, n) => Except.ok (c2, [], n)
    else Except.error "assertion failed: events.is_readable()"
  | State.Writing _ =>
    if events.is_writable then c.write wr
    else Except.error "assertion failed: events.is_writable()"
  | State.Closed => Except.error "Unexpected state."

/-- Reserved token for the listener used by the server (`const SERVER`). -/
def SERVER : Nat := 0

/-- The index of the first free (`None`) entry of the slab, if any:
the slab allocates the lowest free slot. -/
def firstNone : List (Option Connection) → Option Nat
  | [] => none
  | none :: _ => some 0
  | some _ :: t => (firstNone t).map (· + 1)

/-- `mio::util::Slab<Connection>` created by
`Slab::new_starting_at(Token(1), 1024)`: entry `i` of the list corresponds
to token `i + 1` (token 0 is the listener), and the list has 1024 entries. -/
structure Slab where
  entries : List (Option Connection)
deriving Repr, DecidableEq

/-- `Slab::insert_with`: allocate the lowest free slot `i`, build the
connection with its token `i + 1`, store it and return the token; `none`
(capacity exceeded) when no slot is free. -/
def Slab.insert_with (s : Slab) (f : Nat → Connection) : Option (Slab × Nat) :=
  match firstNone s.entries with
  | some i => some (⟨s.entries.set i (some (f (i + 1)))⟩, i + 1)
  | none => none

/-- Slab indexing `self.connections[token]`: token `t ≥ 1` lives at entry
`t - 1`; token 0 (the listener) and out-of-range tokens resolve to nothing
(the Rust indexing would panic). -/
def Slab.get (s : Slab) (tok : Nat) : Option Connection :=
  if tok = 0 then none
  else
    match s.entries.get? (tok - 1) with
    | some oc => oc
    | none => none

/-- `Slab::remove`: frees the slot of the token. -/
def Slab.remove (s : Slab) (tok : Nat) : Slab :=
  ⟨s.entries.set (tok - 1) none⟩

/-- The server: the listener socket is external, so only the connection
slab is modelled (`struct Pong`). -/
structure Pong where
  connections : Slab
deriving Repr, DecidableEq

/-- `Pong::new`: the slab holds up to 1024 connections at tokens 1..1024. -/
def Pong.new : Pong :=
  ⟨⟨List.replicate 1024 none⟩⟩

/-- Environment outcome of `listener.accept()`: `accepted` is
`Ok(Some(socket))`, `notReady` is `Ok(None)`, `acceptErr` is `Err(e)`
(which the handler answers with `event_loop.shutdown()`). -/
inductive AcceptOutcome where
  | accepted
  | notReady
  | acceptErr (e : String)
deriving Repr, DecidableEq

/-- `<Pong as mio::Handler>::ready`: the event-loop dispatch.  Token
`SERVER` accepts (inserting with `insert_with(...).unwrap()`, whose `None`
case panics, then registers the new connection); any other token forwards
the event to that connection and removes it afterwards when it reports
closed.  Returns the new server, the bytes written on the dispatched
connection's socket, the number of `reregister` calls and the number of
slab removals. -/
def Pong.ready (p : Pong) (t : Nat) (events : EventSet) (ao : AcceptOutcome)
    (rr : ReadOutcome) (wr : WriteOutcome) :
    Except String (Pong × List Nat × Nat × Nat) :=
  if t = SERVER then
    match ao with
    | AcceptOutcome.accepted =>
      match p.connections.insert_with (fun token => Connection.new token) with
      | some (slab2, _) => Except.ok (⟨slab2⟩, [], 0, 0)
      | none => Except.error "called Option::unwrap() on a None value"
    | AcceptOutcome.notReady => Except.ok (p, [], 0, 0)
    | AcceptOutcome.acceptErr _ => Except.ok (p, [], 0, 0)
  else
    match p.connections.get t with
    | none => Except.error "index out of bounds"
    | some c =>
      match c.ready events rr wr with
      | Except.error e => Except.error e
      | Except.ok (c2, ws, n) =>
        let slab2 : Slab := ⟨p.connections.entries.set (t - 1) (some c2)⟩
        if c2.is_closed then
          Except.ok (⟨slab2.remove t⟩, ws, n, 1)
        else
          Except.ok (⟨slab2⟩, ws, n, 0)

/-! ## Driving a single connection through a trace of readiness events

The event loop delivers a sequence of readiness notifications to one
connection; each notification comes with the socket's response to the I/O
attempt the connection then makes.  This is the single-connection view of
the loop used to state the round-trip property. -/

/-- One readiness notification for a single connection, together with the
socket's response to the attempt the connection makes on it. -/
inductive DriverEvent where
  | readable (r : ReadOutcome)
  | writable (w : WriteOutcome)
deriving Repr, DecidableEq

/-- Whether an event delivers end-of-stream (`Ok(Some(0))` on read). -/
def DriverEvent.isEof : DriverEvent → Bool
  | DriverEvent.readable (ReadOutcome.bytes []) => true
  | _ => false

/-- The bytes an event delivers to the connection. -/
def newBytes : DriverEvent → List Nat
  | DriverEvent.readable (ReadOutcome.bytes bs) => bs
  | _ => []

/-- All bytes received across a trace, in order. -/
def received (es : List DriverEvent) : List Nat :=
  (es.map newBytes).flatten

/-- Whether a trace contains an end-of-stream notification. -/
def hasEofEvt (es : List DriverEvent) : Bool :=
  es.any DriverEvent.isEof

/-- Dispatch one event to the connection through `Connection::ready`, with
the matching `mio::EventSet`. -/
def Connection.step (c : Connection) (e : DriverEvent) :
    Except String (Connection × List Nat × Nat) :=
  match e with
  | DriverEvent.readable r => c.ready EventSet.readableSet r WriteOutcome.wouldBlock
  | DriverEvent.writable w => c.ready EventSet.writableSet ReadOutcome.wouldBlock w

/-- Run a connection through a trace of events, collecting all bytes it
writes back, in order. -/
def Connection.run (c : Connection) (es : List DriverEvent) :
    Except String (Connection × List Nat) :=
  match es with
  | [] => Except.ok (c, [])
  | e :: rest =>
    match c.step e with
    | Except.error msg => Except.error msg
    | Except.ok (c2, ws, _) =>
      match c2.run rest with
      | Except.error msg => Except.error msg
      | Except.ok (c3, ws2) => Except.ok (c3, ws ++ ws2)

/-- The bytes a state still owes the client: the whole buffer while
`Reading`, the unflushed tail while `Writing`, nothing once `Closed`. -/
def pending : State → List Nat
  | State.Reading buf => buf
  | State.Writing w => w.buf.drop w.pos
  | State.Closed => []

/-- The writable range of a `Writing` state: the slice the write buffer
still offers the socket, starting from the cursor and capped by the take
limit. -/
def writableBytes : State → List Nat
  | State.Writing w => (w.buf.drop w.pos).take w.limit
  | _ => []

/-- Line-boundary invariant of a state, relative to whether end-of-stream
has been seen: a `Writing` state's echo unit (the first `pos + limit` bytes
of its vector) lies inside the vector and either ends with the line
terminator or — only after end-of-stream — spans the whole vector. -/
def State.lineOk (eof : Bool) : State → Prop
  | State.Writing w =>
      w.pos + w.limit ≤ w.buf.length ∧
      ((w.buf.take (w.pos + w.limit)).getLast? = some newline ∨
        (w.pos + w.limit = w.buf.length ∧ eof = true))
  | _ => True

/-- The bytes a read outcome delivers. -/
def ReadOutcome.delivered : ReadOutcome → List Nat
  | ReadOutcome.bytes bs => bs
  | _ => []

/-- Whether a read outcome is end-of-stream. -/
def ReadOutcome.isEofR : ReadOutcome → Bool
  | ReadOutcome.bytes [] => true
  | _ => false

/-! ## Facts about `position` (the first-newline search) -/

theorem position_eq_some {l : List Nat} {b p : Nat} (h : position l b = some p) :
    l.get? p = some b ∧ ∀ q, q < p → l.get? q ≠ some b := by
  induction l generalizing p with
  | nil => simp [position] at h
  | cons a t ih =>
    by_cases hab : a = b
    · subst hab
      simp only [position, eq_self_iff_true, if_true, Option.some.injEq] at h
      subst h
      exact ⟨rfl, fun q hq => absurd hq (by omega)⟩
    · simp only [position, if_neg hab, Option.map_eq_some'] at h
      obtain ⟨p0, hp0, rfl⟩ := h
      obtain ⟨h1, h2⟩ := ih hp0
      refine ⟨h1, ?_⟩
      intro q hq
      cases q with
      | zero => simpa using hab
      | succ q0 => exact h2 q0 (by omega)

theorem position_eq_some_of {l : List Nat} {b p : Nat}
    (hp : l.get? p = some b) (hmin : ∀ q, q < p → l.get? q ≠ some b) :
    position l b = some p := by
  induction l generalizing p with
  | nil => simp at hp
  | cons a t ih =>
    cases p with
    | zero =>
      simp only [List.get?] at hp
      obtain rfl : a = b := by simpa using hp
      simp [position]
    | succ p0 =>
      have ha : a ≠ b := by
        have := hmin 0 (by omega)
        simpa using this
      simp only [List.get?] at hp
      have hmin' : ∀ q, q < p0 → t.get? q ≠ some b := by
        intro q hq
        have := hmin (q + 1) (by omega)
        simpa using this
      have := ih hp hmin'
      simp [position, if_neg ha, this]

theorem position_eq_none {l : List Nat} {b : Nat} (h : position l b = none) :
    ∀ x ∈ l, x ≠ b := by
  induction l with
  | nil => simp
  | cons a t ih =>
    by_cases hab : a = b
    · simp [position, hab] at h
    · simp only [position, if_neg hab, Option.map_eq_none'] at h
      intro x hx
      rcases List.mem_cons.mp hx with rfl | hx'
      · exact hab
      · exact ih h x hx'

theorem position_eq_none_of {l : List Nat} {b : Nat} (h : ∀ x ∈ l, x ≠ b) :
    position l b = none := by
  induction l with
  | nil => rfl
  | cons a t ih =>
    have ha : a ≠ b := h a (by simp)
    have ht := ih (fun x hx => h x (by simp [hx]))
    simp [position, if_neg ha, ht]

theorem position_lt_length {l : List Nat} {b p : Nat} (h : position l b = some p) :
    p < l.length := by
  have h1 := (position_eq_some h).1
  exact (List.get?_eq_some.mp h1).1

/-- A prefix cut one past an occurrence of `b` ends with `b`. -/
theorem getLast?_take_succ {l : List Nat} {p b : Nat} (h : l.get? p = some b) :
    (l.take (p + 1)).getLast? = some b := by
  have h' : l[p]? = some b := by rw [← List.get?_eq_getElem?]; exact h
  rw [List.take_succ, h']
  simp

/-! ## Specification of one read / write attempt -/

/-- Everything a successful `Connection::read` guarantees: the token is
unchanged, the state was `Reading`, the delivered bytes are appended to the
pending bytes, the call re-registers exactly when the connection stays
open, and the resulting state satisfies the line-boundary invariant. -/
theorem read_spec {c : Connection} {r : ReadOutcome} {c2 : Connection} {n : Nat}
    (h : c.read r = Except.ok (c2, n)) :
    c2.token = c.token ∧
    ∃ buf, c.state = State.Reading buf ∧
      buf ++ r.delivered = pending c2.state ∧
      ((n = 1 ∧ c2.state.is_closed = false) ∨ (n = 0 ∧ c2.state.is_closed = true)) ∧
      (∀ f, c2.state.lineOk (f || r.isEofR)) := by
  obtain ⟨tok, st⟩ := c
  cases st with
  | Reading buf =>
    cases r with
    | bytes bs =>
      cases bs with
      | nil =>
        cases buf with
        | nil =>
          simp only [Connection.read, State.read_buf, List.append_nil, List.length_nil,
            if_pos rfl, List.length_eq_zero] at h
          simp only [gt_iff_lt, Nat.lt_irrefl, if_false, Except.ok.injEq, Prod.mk.injEq] at h
          obtain ⟨rfl, rfl⟩ := h
          exact ⟨rfl, [], rfl, rfl, Or.inr ⟨rfl, rfl⟩, fun f => trivial⟩
        | cons b0 bt =>
          simp only [Connection.read, State.read_buf, List.append_nil, List.length_nil,
            if_pos rfl, State.transition_to_writing, Except.map, List.length_cons, gt_iff_lt,
            Nat.succ_pos, if_true, Except.ok.injEq, Prod.mk.injEq] at h
          obtain ⟨rfl, rfl⟩ := h
          exact ⟨rfl, b0 :: bt, rfl, by simp [pending, ReadOutcome.delivered],
            Or.inl ⟨rfl, rfl⟩, fun f => by simp [State.lineOk, ReadOutcome.isEofR]⟩
      | cons b bs' =>
        cases hpos : position (buf ++ b :: bs') newline with
        | some p =>
          simp only [Connection.read, State.read_buf, List.length_cons, Nat.succ_ne_zero,
            if_false, State.try_transition_to_writing, State.transition_to_writing, Except.map,
            hpos, Except.ok.injEq, Prod.mk.injEq] at h
          obtain ⟨rfl, rfl⟩ := h
          refine ⟨rfl, buf, rfl, by simp [pending, ReadOutcome.delivered], Or.inl ⟨rfl, rfl⟩,
            fun f => ?_⟩
          have h1 := (position_eq_some hpos).1
          have h2 := position_lt_length hpos
          exact ⟨by simpa using h2, Or.inl (by simpa using getLast?_take_succ h1)⟩
        | none =>
          simp only [Connection.read, State.read_buf, List.length_cons, Nat.succ_ne_zero,
            if_false, State.try_transition_to_writing, hpos, Except.ok.injEq,
            Prod.mk.injEq] at h
          obtain ⟨rfl, rfl⟩ := h
          exact ⟨rfl, buf, rfl, by simp [pending, ReadOutcome.delivered],
            Or.inl ⟨rfl, rfl⟩, fun f => trivial⟩
    | wouldBlock =>
      simp only [Connection.read, State.read_buf, Except.ok.injEq, Prod.mk.injEq] at h
      obtain ⟨rfl, rfl⟩ := h
      exact ⟨rfl, buf, rfl, by simp [pending, ReadOutcome.delivered],
        Or.inl ⟨rfl, rfl⟩, fun f => trivial⟩
    | ioError e => simp [Connection.read, State.read_buf] at h
  | Writing w => simp [Connection.read, State.read_buf] at h
  | Closed => simp [Connection.read, State.read_buf] at h

/-- The flushed slice plus the tail after the advanced cursor reassemble the
pending bytes: the algebra behind `Connection::write`'s bookkeeping. -/
theorem drop_advance_eq {buf : List Nat} {pos limit k : Nat} :
    buf.drop pos =
      ((buf.drop pos).take limit).take k ++ buf.drop (min (pos + min k limit) buf.length) := by
  have h1 : ((buf.drop pos).take limit).take k = (buf.drop pos).take (min k limit) :=
    List.take_take k limit (buf.drop pos)
  have h2 : buf.drop (min (pos + min k limit) buf.length) = buf.drop (pos + min k limit) := by
    rcases Nat.le_total (pos + min k limit) buf.length with hle | hle
    · rw [Nat.min_eq_left hle]
    · rw [Nat.min_eq_right hle, List.drop_eq_nil_of_le hle]
      exact List.drop_eq_nil_of_le (Nat.le_refl _)
  rw [h1, h2]
  exact (List.drop_take_append_drop buf pos (min k limit)).symm

/-- Everything a successful `Connection::write` guarantees: the token is
unchanged, the state was `Writing`, the bytes put on the wire are carved
off the front of the pending bytes, the call always re-registers and never
closes, and the line-boundary invariant is preserved. -/
theorem write_spec {c : Connection} {r : WriteOutcome} {c2 : Connection} {ws : List Nat}
    {n : Nat} (h : c.write r = Except.ok (c2, ws, n)) :
    c2.token = c.token ∧
    ∃ w, c.state = State.Writing w ∧
      pending c.state = ws ++ pending c2.state ∧
      n = 1 ∧ c2.state.is_closed = false ∧
      (∀ f, c.state.lineOk f → c2.state.lineOk f) := by
  obtain ⟨tok, st⟩ := c
  cases st with
  | Reading buf => simp [Connection.write, State.write_buf] at h
  | Closed => simp [Connection.write, State.write_buf] at h
  | Writing w =>
    obtain ⟨buf, pos, limit⟩ := w
    cases r with
    | wrote k =>
      by_cases hrem : (TakeCursor.advance ⟨buf, pos, limit⟩ k).has_remaining = true
      · simp only [Connection.write, State.write_buf, State.try_transition_to_reading,
          hrem, if_true, Except.ok.injEq, Prod.mk.injEq] at h
        obtain ⟨rfl, rfl, rfl⟩ := h
        refine ⟨rfl, ⟨buf, pos, limit⟩, rfl, ?_, rfl, rfl, fun f hf => ?_⟩
        · simpa [pending, TakeCursor.advance] using
            (@drop_advance_eq buf pos limit k)
        · obtain ⟨hle, hd⟩ := hf
          simp only [TakeCursor.advance, State.lineOk] at *
          have hcnt : min k limit ≤ limit := Nat.min_le_right _ _
          have hpos2 : min (pos + min k limit) buf.length + (limit - min k limit) =
              pos + limit := by omega
          rw [hpos2]
          exact ⟨hle, hd⟩
      · have hrem' : (TakeCursor.advance ⟨buf, pos, limit⟩ k).has_remaining = false := by
          simpa using hrem
        cases hpos : position
            ((TakeCursor.advance ⟨buf, pos, limit⟩ k).buf.drop
              (TakeCursor.advance ⟨buf, pos, limit⟩ k).pos) newline with
        | some p =>
          simp only [Connection.write, State.write_buf, State.try_transition_to_reading,
            hrem', Bool.false_eq_true, if_false, State.try_transition_to_writing,
            State.read_buf, State.transition_to_writing, Except.map, hpos,
            Except.ok.injEq, Prod.mk.injEq] at h
          obtain ⟨rfl, rfl, rfl⟩ := h
          refine ⟨rfl, ⟨buf, pos, limit⟩, rfl, ?_, rfl, rfl, fun f hf => ?_⟩
          · simpa [pending, TakeCursor.advance] using
              (@drop_advance_eq buf pos limit k)
          · have h1 := (position_eq_some hpos).1
            have h2 := position_lt_length hpos
            exact ⟨by simpa using h2, Or.inl (by simpa using getLast?_take_succ h1)⟩
        | none =>
          simp only [Connection.write, State.write_buf, State.try_transition_to_reading,
            hrem', Bool.false_eq_true, if_false, State.try_transition_to_writing,
            State.read_buf, State.transition_to_writing, Except.map, hpos,
            Except.ok.injEq, Prod.mk.injEq] at h
          obtain ⟨rfl, rfl, rfl⟩ := h
          refine ⟨rfl, ⟨buf, pos, limit⟩, rfl, ?_, rfl, rfl, fun f hf => trivial⟩
          simpa [pending, TakeCursor.advance] using
            (@drop_advance_eq buf pos limit k)
    | wouldBlock =>
      simp only [Connection.write, State.write_buf, Except.ok.injEq, Prod.mk.injEq] at h
      obtain ⟨rfl, rfl, rfl⟩ := h
      exact ⟨rfl, ⟨buf, pos, limit⟩, rfl, rfl, rfl, rfl, fun f hf => hf⟩
    | ioError e => simp [Connection.write, State.write_buf] at h

@[simp] theorem isEof_readable (r : ReadOutcome) :
    (DriverEvent.readable r).isEof = r.isEofR := by
  cases r with
  | bytes bs => cases bs <;> rfl
  | wouldBlock => rfl
  | ioError e => rfl

@[simp] theorem isEof_writable (w : WriteOutcome) :
    (DriverEvent.writable w).isEof = false := rfl

@[simp] theorem newBytes_readable (r : ReadOutcome) :
    newBytes (DriverEvent.readable r) = r.delivered := by
  cases r <;> rfl

@[simp] theorem newBytes_writable (w : WriteOutcome) :
    newBytes (DriverEvent.writable w) = [] := rfl

@[simp] theorem received_nil : received [] = [] := rfl

@[simp] theorem received_cons (e : DriverEvent) (rest : List DriverEvent) :
    received (e :: rest) = newBytes e ++ received rest := by
  simp [received]

@[simp] theorem hasEofEvt_nil : hasEofEvt [] = false := rfl

@[simp] theorem hasEofEvt_cons (e : DriverEvent) (rest : List DriverEvent) :
    hasEofEvt (e :: rest) = (e.isEof || hasEofEvt rest) := by
  simp [hasEofEvt]

/-- A successful `Connection::ready` dispatch keeps the token and either
re-registers exactly once with the connection still open, or re-registers
not at all with the connection closed — never both, never neither. -/
theorem ready_spec {c : Connection} {events : EventSet} {rr : ReadOutcome}
    {wr : WriteOutcome} {c2 : Connection} {ws : List Nat} {n : Nat}
    (h : c.ready events rr wr = Except.ok (c2, ws, n)) :
    c2.token = c.token ∧
    ((n = 1 ∧ c2.state.is_closed = false) ∨ (n = 0 ∧ c2.state.is_closed = true)) := by
  cases hst : c.state with
  | Reading buf =>
    by_cases hev : events.is_readable = true
    · simp only [Connection.ready, hst, hev, if_true] at h
      cases hread : c.read rr with
      | error e => rw [hread] at h; exact absurd h (by simp)
      | ok pr =>
        obtain ⟨c3, m⟩ := pr
        rw [hread] at h
        simp only [Except.ok.injEq, Prod.mk.injEq] at h
        obtain ⟨rfl, rfl, rfl⟩ := h
        obtain ⟨htok, _, _, _, hxor, _⟩ := read_spec hread
        exact ⟨htok, hxor⟩
    · simp only [Connection.ready, hst, hev, Bool.false_eq_true, if_false] at h
      exact absurd h (by simp)
  | Writing w =>
    by_cases hev : events.is_writable = true
    · simp only [Connection.ready, hst, hev, if_true] at h
      obtain ⟨htok, _, _, _, hn, hcl, _⟩ := write_spec h
      exact ⟨htok, Or.inl ⟨hn, hcl⟩⟩
    · simp only [Connection.ready, hst, hev, Bool.false_eq_true, if_false] at h
      exact absurd h (by simp)
  | Closed =>
    simp only [Connection.ready, hst] at h
    exact absurd h (by simp)

/-- One dispatched event, seen through `Connection::step`: the pending
bytes plus freshly received bytes reassemble as written bytes plus new
pending bytes; re-registration happens exactly when the connection stays
open; and the line-boundary invariant is preserved (picking up the
end-of-stream flag of the event). -/
theorem step_spec {c : Connection} {e : DriverEvent} {c2 : Connection} {ws : List Nat}
    {n : Nat} (h : c.step e = Except.ok (c2, ws, n)) :
    c2.token = c.token ∧
    pending c.state ++ newBytes e = ws ++ pending c2.state ∧
    ((n = 1 ∧ c2.state.is_closed = false) ∨ (n = 0 ∧ c2.state.is_closed = true)) ∧
    (∀ f, c.state.lineOk f → c2.state.lineOk (f || e.isEof)) := by
  cases e with
  | readable r =>
    cases hst : c.state with
    | Reading buf =>
      simp only [Connection.step, Connection.ready, hst, EventSet.is_readable,
        EventSet.readableSet, if_true] at h
      cases hread : c.read r with
      | error msg => rw [hread] at h; exact absurd h (by simp)
      | ok pr =>
        obtain ⟨c3, m⟩ := pr
        rw [hread] at h
        simp only [Except.ok.injEq, Prod.mk.injEq] at h
        obtain ⟨rfl, rfl, rfl⟩ := h
        obtain ⟨htok, buf2, hbuf2, hpend, hxor, hlok⟩ := read_spec hread
        rw [hst] at hbuf2
        obtain rfl : buf = buf2 := by
          simpa using hbuf2
        refine ⟨htok, ?_, hxor, fun f _ => by simpa using hlok f⟩
        simpa [hst, pending] using hpend
    | Writing w =>
      simp only [Connection.step, Connection.ready, hst, EventSet.is_writable,
        EventSet.readableSet, Bool.false_eq_true, if_false] at h
      exact absurd h (by simp)
    | Closed =>
      simp only [Connection.step, Connection.ready, hst] at h
      exact absurd h (by simp)
  | writable wout =>
    cases hst : c.state with
    | Reading buf =>
      simp only [Connection.step, Connection.ready, hst, EventSet.is_readable,
        EventSet.writableSet, Bool.false_eq_true, if_false] at h
      exact absurd h (by simp)
    | Writing w =>
      simp only [Connection.step, Connection.ready, hst, EventSet.is_writable,
        EventSet.writableSet, if_true] at h
      obtain ⟨htok, w2, hw2, hpend, hn, hcl, hlok⟩ := write_spec h
      rw [hst] at hw2 hpend hlok
      refine ⟨htok, by simpa [hst] using hpend, Or.inl ⟨hn, hcl⟩,
        fun f hf => by simpa using hlok f (by simpa [hst] using hf)⟩
    | Closed =>
      simp only [Connection.step, Connection.ready, hst] at h
      exact absurd h (by simp)

/-- A whole trace, by induction over `step_spec`: pending bytes plus all
received bytes reassemble as all written bytes plus final pending bytes,
and the line-boundary invariant carries through. -/
theorem run_spec {es : List DriverEvent} {c : Connection} {c2 : Connection} {ws : List Nat}
    (h : c.run es = Except.ok (c2, ws)) :
    c2.token = c.token ∧
    pending c.state ++ received es = ws ++ pending c2.state ∧
    (∀ f, c.state.lineOk f → c2.state.lineOk (f || hasEofEvt es)) := by
  induction es generalizing c ws with
  | nil =>
    simp only [Connection.run, Except.ok.injEq, Prod.mk.injEq] at h
    obtain ⟨rfl, rfl⟩ := h
    simp
  | cons e rest ih =>
    cases hstep : c.step e with
    | error msg => simp [Connection.run, hstep] at h
    | ok tr =>
      obtain ⟨cm, wsm, nm⟩ := tr
      cases hrun : cm.run rest with
      | error msg => simp [Connection.run, hstep, hrun] at h
      | ok pr2 =>
        obtain ⟨cf, ws2⟩ := pr2
        simp only [Connection.run, hstep, hrun, Except.ok.injEq, Prod.mk.injEq] at h
        obtain ⟨rfl, rfl⟩ := h
        obtain ⟨ht1, hp1, _, hl1⟩ := step_spec hstep
        obtain ⟨ht2, hp2, hl2⟩ := ih hrun
        refine ⟨ht2.trans ht1, ?_, fun f hf => ?_⟩
        · rw [received_cons, ← List.append_assoc, hp1, List.append_assoc, hp2,
            ← List.append_assoc]
        · have h1 := hl1 f hf
          have h2 := hl2 (f || e.isEof) h1
          rw [hasEofEvt_cons, ← Bool.or_assoc]
          exact h2

/-! ## Server-level invariant and dispatch lemmas -/

/-- Well-formedness of the connection table, maintained by the event loop:
full capacity 1024, every stored connection carries the token of its own
slot (offset 1, so never the listener's token 0), and no stored connection
is closed (closed connections are removed in the same dispatch). -/
def Pong.wf (p : Pong) : Prop :=
  p.connections.entries.length = 1024 ∧
  ∀ i c, p.connections.entries.get? i = some (some c) →
    c.token = i + 1 ∧ c.state.is_closed = false

theorem get?_replicate_eq {α : Type} {n i : Nat} {a x : α}
    (h : (List.replicate n a).get? i = some x) : x = a := by
  induction n generalizing i with
  | zero => simp at h
  | succ n ih =>
    cases i with
    | zero => simpa [List.replicate] using h.symm
    | succ i0 => exact ih (by simpa [List.replicate] using h)

theorem firstNone_some {l : List (Option Connection)} {i : Nat}
    (h : firstNone l = some i) : l.get? i = some none := by
  induction l generalizing i with
  | nil => simp [firstNone] at h
  | cons a t ih =>
    cases a with
    | none =>
      simp only [firstNone, Option.some.injEq] at h
      subst h
      rfl
    | some c =>
      simp only [firstNone, Option.map_eq_some'] at h
      obtain ⟨i0, hi0, rfl⟩ := h
      simpa using ih hi0

theorem firstNone_none_of {l : List (Option Connection)}
    (h : ∀ x ∈ l, x ≠ none) : firstNone l = none := by
  induction l with
  | nil => rfl
  | cons a t ih =>
    cases a with
    | none => exact absurd rfl (h none (by simp))
    | some c =>
      have := ih (fun x hx => h x (by simp [hx]))
      simp [firstNone, this]

theorem get?_set_self {α : Type} (l : List α) (i : Nat) (a : α) (h : i < l.length) :
    (l.set i a).get? i = some a := by
  induction l generalizing i with
  | nil => simp at h
  | cons x t ih =>
    cases i with
    | zero => rfl
    | succ i0 => exact ih i0 (by simpa using h)

theorem get?_set_diff {α : Type} (l : List α) (a : α) {i j : Nat} (h : i ≠ j) :
    (l.set i a).get? j = l.get? j := by
  induction l generalizing i j with
  | nil => simp
  | cons x t ih =>
    cases i with
    | zero =>
      cases j with
      | zero => exact absurd rfl h
      | succ j0 => rfl
    | succ i0 =>
      cases j with
      | zero => rfl
      | succ j0 => exact ih (fun hh => h (by rw [hh]))

/-- Successful slab lookup of a non-listener token exposes the entry at
slot `t - 1`. -/
theorem slab_get_some {s : Slab} {t : Nat} {c : Connection} (ht : t ≠ 0)
    (h : s.get t = some c) : s.entries.get? (t - 1) = some (some c) := by
  simp only [Slab.get, if_neg ht] at h
  cases hq : s.entries.get? (t - 1) with
  | none =>
    rw [hq] at h
    exact absurd (show (none : Option Connection) = some c from h) (by simp)
  | some oc =>
    rw [hq] at h
    exact congrArg some (show oc = some c from h)

/-- Shape of a successful non-listener dispatch in `Pong::ready`: the token
is looked up, the connection handles the event, and the table is updated —
with the slot freed exactly when the connection reports closed. -/
theorem pong_ready_conn {p : Pong} {t : Nat} {ev : EventSet} {ao : AcceptOutcome}
    {rr : ReadOutcome} {wr : WriteOutcome} {p2 : Pong} {ws : List Nat} {n m : Nat}
    (ht : t ≠ SERVER)
    (h : p.ready t ev ao rr wr = Except.ok (p2, ws, n, m)) :
    ∃ c c2, p.connections.get t = some c ∧
      c.ready ev rr wr = Except.ok (c2, ws, n) ∧
      ((c2.is_closed = true ∧ m = 1 ∧
          p2 = ⟨⟨(p.connections.entries.set (t - 1) (some c2)).set (t - 1) none⟩⟩) ∨
       (c2.is_closed = false ∧ m = 0 ∧
          p2 = ⟨⟨p.connections.entries.set (t - 1) (some c2)⟩⟩)) := by
  simp only [Pong.ready, if_neg ht] at h
  cases hget : p.connections.get t with
  | none => simp [hget] at h
  | some c =>
    simp only [hget] at h
    cases hready : c.ready ev rr wr with
    | error e => simp [hready] at h
    | ok tr =>
      obtain ⟨c2, ws2, n2⟩ := tr
      simp only [hready] at h
      by_cases hcl : c2.is_closed = true
      · simp only [hcl, if_true, Slab.remove, Except.ok.injEq, Prod.mk.injEq] at h
        obtain ⟨rfl, rfl, rfl, rfl⟩ := h
        exact ⟨c, c2, rfl, hready, Or.inl ⟨hcl, rfl, rfl⟩⟩
      · simp only [hcl, Bool.false_eq_true, if_false, Except.ok.injEq, Prod.mk.injEq] at h
        obtain ⟨rfl, rfl, rfl, rfl⟩ := h
        exact ⟨c, c2, rfl, hready, Or.inr ⟨by simpa using hcl, rfl, rfl⟩⟩

/-- The freshly started server is well-formed. -/
theorem wf_new : Pong.new.wf := by
  constructor
  · show (List.replicate 1024 (none : Option Connection)).length = 1024
    exact List.length_replicate _ _
  · intro i c h
    exact absurd (get?_replicate_eq h) (by simp)

/-- Well-formedness is preserved by every successful event-loop dispatch. -/
theorem wf_ready {p : Pong} {t : Nat} {ev : EventSet} {ao : AcceptOutcome}
    {rr : ReadOutcome} {wr : WriteOutcome} {p2 : Pong} {ws : List Nat} {n m : Nat}
    (hwf : p.wf) (h : p.ready t ev ao rr wr = Except.ok (p2, ws, n, m)) : p2.wf := by
  obtain ⟨hlen, hent⟩ := hwf
  by_cases ht : t = SERVER
  · subst ht
    simp only [Pong.ready, if_pos rfl] at h
    cases ao with
    | accepted =>
      cases hins : Slab.insert_with p.connections (fun token => Connection.new token) with
      | none => simp [hins] at h
      | some pr =>
        obtain ⟨slab2, tok⟩ := pr
        simp only [hins, Except.ok.injEq, Prod.mk.injEq] at h
        obtain ⟨rfl, -, -, -⟩ := h
        simp only [Slab.insert_with] at hins
        cases hfn : firstNone p.connections.entries with
        | none => simp [hfn] at hins
        | some i =>
          simp only [hfn, Option.some.injEq, Prod.mk.injEq] at hins
          obtain ⟨rfl, rfl⟩ := hins
          have hilt : i < p.connections.entries.length :=
            (List.get?_eq_some.mp (firstNone_some hfn)).1
          refine ⟨by rw [List.length_set]; exact hlen, fun j c hj => ?_⟩
          by_cases hij : i = j
          · subst hij
            rw [get?_set_self _ _ _ hilt] at hj
            obtain rfl : Connection.new (i + 1) = c := by simpa using hj
            exact ⟨rfl, rfl⟩
          · rw [get?_set_diff _ _ hij] at hj
            exact hent j c hj
    | notReady =>
      simp only [Except.ok.injEq, Prod.mk.injEq] at h
      obtain ⟨rfl, -, -, -⟩ := h
      exact ⟨hlen, hent⟩
    | acceptErr e =>
      simp only [Except.ok.injEq, Prod.mk.injEq] at h
      obtain ⟨rfl, -, -, -⟩ := h
      exact ⟨hlen, hent⟩
  · obtain ⟨c, c2, hget, hready, hbr⟩ := pong_ready_conn ht h
    have hidx := slab_get_some ht hget
    have htidx : t - 1 < p.connections.entries.length :=
      (List.get?_eq_some.mp hidx).1
    have htok := hent (t - 1) c hidx
    obtain ⟨htk, hrs⟩ := ready_spec hready
    rcases hbr with ⟨hcl, -, rfl⟩ | ⟨hcl, -, rfl⟩
    · refine ⟨by rw [List.length_set, List.length_set]; exact hlen, fun j c3 hj => ?_⟩
      by_cases hij : t - 1 = j
      · subst hij
        rw [get?_set_self _ _ _ (by rw [List.length_set]; exact htidx)] at hj
        exact absurd hj (by simp)
      · rw [get?_set_diff _ _ hij, get?_set_diff _ _ hij] at hj
        exact hent j c3 hj
    · refine ⟨by rw [List.length_set]; exact hlen, fun j c3 hj => ?_⟩
      by_cases hij : t - 1 = j
      · subst hij
        rw [get?_set_self _ _ _ htidx] at hj
        obtain rfl : c2 = c3 := by simpa using hj
        have ht0 : t ≠ 0 := ht
        have ht1 : t - 1 + 1 = t := by omega
        refine ⟨by rw [htk, htok.1, ht1], ?_⟩
        simpa [Connection.is_closed] using hcl
      · rw [get?_set_diff _ _ hij] at hj
        exact hent j c3 hj

/-! ## Claim theorems -/

/-- C3: after appending newly received bytes in the `Reading` state, if the
buffer holds the line terminator `0x0A` at first position `p`, the state
becomes `Writing` whose writable range is exactly the bytes `[0, p]`
(terminator included) with the cursor at 0; with no terminator the state
stays `Reading` with the appended bytes retained; either way the handler
re-registers once. -/
theorem reading_to_writing_on_newline (c : Connection) (buf bs : List Nat)
    (c2 : Connection) (n : Nat)
    (hst : c.state = State.Reading buf) (hbs : bs ≠ [])
    (h : c.read (ReadOutcome.bytes bs) = Except.ok (c2, n)) :
    (∀ p, (buf ++ bs).get? p = some newline →
        (∀ q, q < p → (buf ++ bs).get? q ≠ some newline) →
        c2.state = State.Writing ⟨buf ++ bs, 0, p + 1⟩ ∧
        writableBytes c2.state = (buf ++ bs).take (p + 1)) ∧
    ((∀ x, x ∈ buf ++ bs → x ≠ newline) → c2.state = State.Reading (buf ++ bs)) ∧
    n = 1 := by
  obtain ⟨tok, st⟩ := c
  simp only at hst
  subst hst
  cases bs with
  | nil => exact absurd rfl hbs
  | cons b bs2 =>
    cases hpos : position (buf ++ b :: bs2) newline with
    | some p0 =>
      simp only [Connection.read, State.read_buf, List.length_cons, Nat.succ_ne_zero,
        if_false, State.try_transition_to_writing, State.transition_to_writing, Except.map,
        hpos, Except.ok.injEq, Prod.mk.injEq] at h
      obtain ⟨rfl, rfl⟩ := h
      refine ⟨fun p hp hmin => ?_, fun hno => ?_, rfl⟩
      · have : position (buf ++ b :: bs2) newline = some p := position_eq_some_of hp hmin
        rw [hpos] at this
        obtain rfl : p0 = p := by simpa using this
        exact ⟨rfl, by simp [writableBytes]⟩
      · exact absurd hpos (by rw [position_eq_none_of hno]; simp)
    | none =>
      simp only [Connection.read, State.read_buf, List.length_cons, Nat.succ_ne_zero,
        if_false, State.try_transition_to_writing, hpos, Except.ok.injEq,
        Prod.mk.injEq] at h
      obtain ⟨rfl, rfl⟩ := h
      refine ⟨fun p hp hmin => ?_, fun hno => rfl, rfl⟩
      exact absurd (position_eq_some_of hp hmin) (by rw [hpos]; simp)

/-- C3 witness: receiving `[97, 10]` on an empty buffer yields the writing
state over both bytes. -/
theorem reading_to_writing_on_newline_witness :
    (∀ p, (([] : List Nat) ++ [97, 10]).get? p = some newline →
        (∀ q, q < p → (([] : List Nat) ++ [97, 10]).get? q ≠ some newline) →
        (State.Writing ⟨[97, 10], 0, 2⟩) = State.Writing ⟨([] : List Nat) ++ [97, 10], 0, p + 1⟩ ∧
        writableBytes (State.Writing ⟨[97, 10], 0, 2⟩) = (([] : List Nat) ++ [97, 10]).take (p + 1)) ∧
    ((∀ x, x ∈ ([] : List Nat) ++ [97, 10] → x ≠ newline) →
        (State.Writing ⟨[97, 10], 0, 2⟩) = State.Reading (([] : List Nat) ++ [97, 10])) ∧
    (1 : Nat) = 1 :=
  reading_to_writing_on_newline ⟨7, State.Reading []⟩ [] [97, 10]
    ⟨7, State.Writing ⟨[97, 10], 0, 2⟩⟩ 1 rfl (by simp) rfl

/-- C5: an end-of-stream read on a non-empty `Reading` buffer flushes: the
state becomes `Writing` over the entire buffer (terminator or not), so
buffered input is echoed rather than dropped on disconnect, and the
connection re-registers. -/
theorem flush_on_close (c : Connection) (buf : List Nat) (c2 : Connection) (n : Nat)
    (hst : c.state = State.Reading buf) (hne : buf ≠ [])
    (h : c.read (ReadOutcome.bytes []) = Except.ok (c2, n)) :
    c2.state = State.Writing ⟨buf, 0, buf.length⟩ ∧
    writableBytes c2.state = buf ∧ n = 1 := by
  obtain ⟨tok, st⟩ := c
  simp only at hst
  subst hst
  cases buf with
  | nil => exact absurd rfl hne
  | cons b0 bt =>
    simp only [Connection.read, State.read_buf, List.append_nil, List.length_nil,
      if_pos rfl, State.transition_to_writing, Except.map, List.length_cons, gt_iff_lt,
      Nat.succ_pos, if_true, Except.ok.injEq, Prod.mk.injEq] at h
    obtain ⟨rfl, rfl⟩ := h
    exact ⟨rfl, by simp [writableBytes], rfl⟩

/-- C5 witness: end-of-stream with `[112]` buffered flushes the byte. -/
theorem flush_on_close_witness :
    (State.Writing ⟨[112], 0, 1⟩) = State.Writing ⟨[112], 0, [112].length⟩ ∧
    writableBytes (State.Writing ⟨[112], 0, 1⟩) = [112] ∧ (1 : Nat) = 1 :=
  flush_on_close ⟨2, State.Reading [112]⟩ [112] ⟨2, State.Writing ⟨[112], 0, 1⟩⟩ 1
    rfl (by simp) rfl

/-- C6: an end-of-stream read on an empty `Reading` buffer closes the
connection: no bytes are echoed, no re-registration happens, the event
loop removes the connection from the table (so no further I/O is attempted
on the socket), and a closed connection desires no readiness events. -/
theorem close_on_eof_empty (c : Connection) (hst : c.state = State.Reading []) :
    c.read (ReadOutcome.bytes []) = Except.ok ({ c with state := State.Closed }, 0) ∧
    Connection.get_event_set { c with state := State.Closed } = EventSet.noneSet ∧
    (∀ (p : Pong) t ev ao wr p2 ws n m, t ≠ SERVER → p.connections.get t = some c →
      p.ready t ev ao (ReadOutcome.bytes []) wr = Except.ok (p2, ws, n, m) →
      ws = [] ∧ n = 0 ∧ m = 1 ∧ p2.connections.get t = none) := by
  obtain ⟨tok, st⟩ := c
  simp only at hst
  subst hst
  refine ⟨rfl, rfl, fun p t ev ao wr p2 ws n m ht hget h => ?_⟩
  obtain ⟨c3, c2, hget2, hready, hbr⟩ := pong_ready_conn ht h
  rw [hget] at hget2
  obtain rfl : Connection.mk tok (State.Reading []) = c3 := by simpa using hget2
  have hidx := slab_get_some ht hget
  have htidx : t - 1 < p.connections.entries.length := (List.get?_eq_some.mp hidx).1
  by_cases hev : ev.is_readable = true
  · simp only [Connection.ready, hev, if_true, Connection.read, State.read_buf,
      List.append_nil, List.length_nil, if_pos rfl, gt_iff_lt, Nat.lt_irrefl, if_false,
      Except.ok.injEq, Prod.mk.injEq] at hready
    obtain ⟨hc2, rfl, rfl⟩ := hready
    rcases hbr with ⟨-, rfl, rfl⟩ | ⟨hcl, -, -⟩
    · refine ⟨rfl, rfl, rfl, ?_⟩
      have ht0 : ¬ t = 0 := ht
      simp only [Slab.get, if_neg ht0]
      rw [get?_set_self _ _ _ (by rw [List.length_set]; exact htidx)]
    · rw [← hc2] at hcl
      simp [Connection.is_closed, State.is_closed] at hcl
  · simp only [Connection.ready, hev, Bool.false_eq_true, if_false] at hready
    exact absurd hready (by simp)

/-- C6 witness: a concrete connection with an empty buffer closes on
end-of-stream. -/
theorem close_on_eof_empty_witness :
    Connection.read ⟨3, State.Reading []⟩ (ReadOutcome.bytes []) =
      Except.ok (⟨3, State.Closed⟩, 0) ∧
    Connection.get_event_set ⟨3, State.Closed⟩ = EventSet.noneSet :=
  ⟨(close_on_eof_empty ⟨3, State.Reading []⟩ rfl).1,
    (close_on_eof_empty ⟨3, State.Reading []⟩ rfl).2.1⟩

/-- C8: a socket-level error reported by a non-blocking read or write is
fatal to the whole server: `Connection::read`/`Connection::write` panic,
and the panic propagates through the event-loop dispatch (aborting the
process) instead of closing only the affected connection. -/
theorem socket_error_fatal :
    (∀ (c : Connection) (buf : List Nat) (e : String), c.state = State.Reading buf →
        c.read (ReadOutcome.ioError e) = Except.error ("Connection reading error: " ++ e)) ∧
    (∀ (c : Connection) (w : TakeCursor) (e : String), c.state = State.Writing w →
        c.write (WriteOutcome.ioError e) = Except.error ("Connection writing error: " ++ e)) ∧
    (∀ (p : Pong) t (c : Connection) (buf : List Nat) (e : String) ev ao wr,
        t ≠ SERVER → p.connections.get t = some c → c.state = State.Reading buf →
        ev.is_readable = true →
        p.ready t ev ao (ReadOutcome.ioError e) wr =
          Except.error ("Connection reading error: " ++ e)) ∧
    (∀ (p : Pong) t (c : Connection) (w : TakeCursor) (e : String) ev ao rr,
        t ≠ SERVER → p.connections.get t = some c → c.state = State.Writing w →
        ev.is_writable = true →
        p.ready t ev ao rr (WriteOutcome.ioError e) =
          Except.error ("Connection writing error: " ++ e)) := by
  refine ⟨fun c buf e hst => ?_, fun c w e hst => ?_,
    fun p t c buf e ev ao wr ht hget hst hev => ?_, fun p t c w e ev ao rr ht hget hst hev => ?_⟩
  · obtain ⟨tok, st⟩ := c
    simp only at hst
    subst hst
    rfl
  · obtain ⟨tok, st⟩ := c
    simp only at hst
    subst hst
    rfl
  · obtain ⟨tok, st⟩ := c
    simp only at hst
    subst hst
    simp only [Pong.ready, if_neg ht, hget, Connection.ready, hev, if_true,
      Connection.read, State.read_buf]
  · obtain ⟨tok, st⟩ := c
    simp only at hst
    subst hst
    simp only [Pong.ready, if_neg ht, hget, Connection.ready, hev, if_true,
      Connection.write, State.write_buf]

/-- C8 witness: concrete socket errors on a reading and on a writing
connection both panic. -/
theorem socket_error_fatal_witness :
    Connection.read ⟨1, State.Reading []⟩ (ReadOutcome.ioError "oops") =
      Except.error ("Connection reading error: " ++ "oops") ∧
    Connection.write ⟨1, State.Writing ⟨[10], 0, 1⟩⟩ (WriteOutcome.ioError "oops") =
      Except.error ("Connection writing error: " ++ "oops") :=
  ⟨socket_error_fatal.1 ⟨1, State.Reading []⟩ [] "oops" rfl,
    socket_error_fatal.2.1 ⟨1, State.Writing ⟨[10], 0, 1⟩⟩ ⟨[10], 0, 1⟩ "oops" rfl⟩

/-- C2: every readiness event dispatched to a connection handle (not the
listener) that completes without a panic performs exactly one
re-registration or exactly one removal from the table — never both, never
neither. -/
theorem dispatch_rereg_xor_removal (p : Pong) (t : Nat) (ev : EventSet)
    (ao : AcceptOutcome) (rr : ReadOutcome) (wr : WriteOutcome) (p2 : Pong)
    (ws : List Nat) (reregs removals : Nat) (ht : t ≠ SERVER)
    (h : p.ready t ev ao rr wr = Except.ok (p2, ws, reregs, removals)) :
    reregs + removals = 1 ∧
    (reregs = 1 ∧ removals = 0 ∨ reregs = 0 ∧ removals = 1) := by
  obtain ⟨c, c2, hget, hready, hbr⟩ := pong_ready_conn ht h
  obtain ⟨-, hxor⟩ := ready_spec hready
  rcases hbr with ⟨hcl, rfl, -⟩ | ⟨hcl, rfl, -⟩
  · have hcl' : c2.state.is_closed = true := hcl
    rcases hxor with ⟨rfl, hfalse⟩ | ⟨rfl, -⟩
    · rw [hcl'] at hfalse
      exact absurd hfalse (by simp)
    · exact ⟨rfl, Or.inr ⟨rfl, rfl⟩⟩
  · have hcl' : c2.state.is_closed = false := hcl
    rcases hxor with ⟨rfl, -⟩ | ⟨rfl, htrue⟩
    · exact ⟨rfl, Or.inl ⟨rfl, rfl⟩⟩
    · rw [hcl'] at htrue
      exact absurd htrue (by simp)

/-- C2 witness: a would-block read on a live connection re-registers once
and removes nothing. -/
theorem dispatch_rereg_xor_removal_witness :
    (1 : Nat) + 0 = 1 ∧
    ((1 : Nat) = 1 ∧ (0 : Nat) = 0 ∨ (1 : Nat) = 0 ∧ (0 : Nat) = 1) :=
  dispatch_rereg_xor_removal
    ⟨⟨(List.replicate 1024 (none : Option Connection)).set 0
        (some ⟨1, State.Reading []⟩)⟩⟩
    1 EventSet.readableSet AcceptOutcome.notReady ReadOutcome.wouldBlock
    WriteOutcome.wouldBlock
    ⟨⟨((List.replicate 1024 (none : Option Connection)).set 0
        (some ⟨1, State.Reading []⟩)).set 0 (some ⟨1, State.Reading []⟩)⟩⟩
    [] 1 0 (by decide) rfl

/-- C9: token 0 is reserved for the listener and never allocated to a
connection — every allocated token is at least 1 — and in a well-formed
table (as established at startup and preserved by every dispatch) two
distinct live slots never hold connections with equal tokens. -/
theorem handle_invariants :
    SERVER = 0 ∧
    (∀ (s : Slab) (f : Nat → Connection) (s2 : Slab) (tok : Nat),
        s.insert_with f = some (s2, tok) → 1 ≤ tok ∧ tok ≠ SERVER) ∧
    Pong.wf Pong.new ∧
    (∀ (p : Pong) t ev ao rr wr p2 ws n m, Pong.wf p →
        p.ready t ev ao rr wr = Except.ok (p2, ws, n, m) → Pong.wf p2) ∧
    (∀ (p : Pong) i j ci cj, Pong.wf p →
        p.connections.entries.get? i = some (some ci) →
        p.connections.entries.get? j = some (some cj) →
        ci.token = cj.token → i = j) := by
  refine ⟨rfl, fun s f s2 tok h => ?_, wf_new,
    fun p t ev ao rr wr p2 ws n m hwf h => wf_ready hwf h,
    fun p i j ci cj hwf hi hj htok => ?_⟩
  · simp only [Slab.insert_with] at h
    cases hfn : firstNone s.entries with
    | none => simp [hfn] at h
    | some i =>
      simp only [hfn, Option.some.injEq, Prod.mk.injEq] at h
      obtain ⟨-, rfl⟩ := h
      exact ⟨by omega, by simp [SERVER]⟩
  · have h1 := (hwf.2 i ci hi).1
    have h2 := (hwf.2 j cj hj).1
    rw [h1, h2] at htok
    omega

/-- C9 witness: the smallest insertion allocates token 1 (never the
listener's 0); the table after accepting one connection is well-formed,
and token-distinctness instantiates on it. -/
theorem handle_invariants_witness :
    (1 ≤ 1 ∧ (1 : Nat) ≠ SERVER) ∧
    Pong.wf ⟨⟨(List.replicate 1024 (none : Option Connection)).set 0
        (some (Connection.new 1))⟩⟩ ∧
    (0 : Nat) = 0 := by
  have hwf2 := handle_invariants.2.2.2.1 Pong.new 0 EventSet.readableSet
    AcceptOutcome.accepted ReadOutcome.wouldBlock WriteOutcome.wouldBlock
    ⟨⟨(List.replicate 1024 (none : Option Connection)).set 0
        (some (Connection.new 1))⟩⟩
    [] 0 0 handle_invariants.2.2.1 rfl
  refine ⟨handle_invariants.2.1 ⟨[none]⟩ Connection.new
      ⟨[some (Connection.new 1)]⟩ 1 rfl, hwf2, ?_⟩
  exact handle_invariants.2.2.2.2 _ 0 0 (Connection.new 1) (Connection.new 1)
    hwf2 rfl rfl rfl

/-- C10: dispatching an event whose kind does not match the connection's
state panics (a failed `assert!`), dispatching to a `Closed` connection
always panics — and under the loop's discipline (closed connections are
removed in the same dispatch, an invariant preserved by every dispatch) no
connection stored in the table is ever `Closed`, so that branch is
unreachable. -/
theorem ready_panics_on_mismatch :
    (∀ (c : Connection) (buf : List Nat) ev rr wr, c.state = State.Reading buf →
        ev.is_readable = false →
        c.ready ev rr wr = Except.error "assertion failed: events.is_readable()") ∧
    (∀ (c : Connection) (w : TakeCursor) ev rr wr, c.state = State.Writing w →
        ev.is_writable = false →
        c.ready ev rr wr = Except.error "assertion failed: events.is_writable()") ∧
    (∀ (c : Connection) ev rr wr, c.state = State.Closed →
        c.ready ev rr wr = Except.error "Unexpected state.") ∧
    (∀ (p : Pong) t (c : Connection), Pong.wf p → p.connections.get t = some c →
        c.state ≠ State.Closed) ∧
    (∀ (p : Pong) t ev ao rr wr p2 ws n m, Pong.wf p →
        p.ready t ev ao rr wr = Except.ok (p2, ws, n, m) → Pong.wf p2) := by
  refine ⟨fun c buf ev rr wr hst hev => ?_, fun c w ev rr wr hst hev => ?_,
    fun c ev rr wr hst => ?_, fun p t c hwf hget => ?_,
    fun p t ev ao rr wr p2 ws n m hwf h => wf_ready hwf h⟩
  · obtain ⟨tok, st⟩ := c
    simp only at hst
    subst hst
    simp [Connection.ready, hev]
  · obtain ⟨tok, st⟩ := c
    simp only at hst
    subst hst
    simp [Connection.ready, hev]
  · obtain ⟨tok, st⟩ := c
    simp only at hst
    subst hst
    rfl
  · by_cases ht : t = 0
    · subst ht
      simp [Slab.get] at hget
    · have hidx := slab_get_some ht hget
      have hopen := (hwf.2 (t - 1) c hidx).2
      intro hcl
      rw [hcl] at hopen
      simp [State.is_closed] at hopen

/-- C10 witness: concrete mismatched dispatches and a dispatch to a closed
connection all panic. -/
theorem ready_panics_on_mismatch_witness :
    Connection.ready ⟨1, State.Reading []⟩ EventSet.writableSet ReadOutcome.wouldBlock
        WriteOutcome.wouldBlock = Except.error "assertion failed: events.is_readable()" ∧
    Connection.ready ⟨1, State.Writing ⟨[10], 0, 1⟩⟩ EventSet.readableSet
        ReadOutcome.wouldBlock WriteOutcome.wouldBlock =
      Except.error "assertion failed: events.is_writable()" ∧
    Connection.ready ⟨1, State.Closed⟩ EventSet.readableSet ReadOutcome.wouldBlock
        WriteOutcome.wouldBlock = Except.error "Unexpected state." :=
  ⟨ready_panics_on_mismatch.1 ⟨1, State.Reading []⟩ [] EventSet.writableSet
      ReadOutcome.wouldBlock WriteOutcome.wouldBlock rfl rfl,
   ready_panics_on_mismatch.2.1 ⟨1, State.Writing ⟨[10], 0, 1⟩⟩ ⟨[10], 0, 1⟩
      EventSet.readableSet ReadOutcome.wouldBlock WriteOutcome.wouldBlock rfl rfl,
   ready_panics_on_mismatch.2.2.1 ⟨1, State.Closed⟩ EventSet.readableSet
      ReadOutcome.wouldBlock WriteOutcome.wouldBlock rfl⟩

/-- C4: once the write cursor has consumed the whole writable range, the
transition back to `Reading` seeds the new buffer with exactly the bytes
of the original vector after the flushed range, and immediately re-checks
that leftover for a terminator, going straight back to `Writing` when one
is present; concretely, `"a\nb\n"` received in one read is echoed as two
lines with no second read-readiness event between them. -/
theorem writing_to_reading_recovers_leftover (w : TakeCursor) (s2 : State)
    (hdone : w.has_remaining = false)
    (h : (State.Writing w).try_transition_to_reading = Except.ok s2) :
    ((∀ x, x ∈ w.buf.drop w.pos → x ≠ newline) → s2 = State.Reading (w.buf.drop w.pos)) ∧
    (∀ p, (w.buf.drop w.pos).get? p = some newline →
        (∀ q, q < p → (w.buf.drop w.pos).get? q ≠ some newline) →
        s2 = State.Writing ⟨w.buf.drop w.pos, 0, p + 1⟩) ∧
    Connection.run ⟨0, State.Reading []⟩
        [DriverEvent.readable (ReadOutcome.bytes [97, 10, 98, 10]),
         DriverEvent.writable (WriteOutcome.wrote 2)] =
      Except.ok (⟨0, State.Writing ⟨[98, 10], 0, 2⟩⟩, [97, 10]) ∧
    Connection.run ⟨0, State.Reading []⟩
        [DriverEvent.readable (ReadOutcome.bytes [97, 10, 98, 10]),
         DriverEvent.writable (WriteOutcome.wrote 2),
         DriverEvent.writable (WriteOutcome.wrote 2)] =
      Except.ok (⟨0, State.Reading []⟩, [97, 10, 98, 10]) := by
  refine ⟨fun hno => ?_, fun p hp hmin => ?_, rfl, rfl⟩
  · simp only [State.try_transition_to_reading, State.write_buf, hdone,
      Bool.false_eq_true, if_false, State.try_transition_to_writing, State.read_buf,
      position_eq_none_of hno, Except.ok.injEq] at h
    exact h.symm
  · simp only [State.try_transition_to_reading, State.write_buf, hdone,
      Bool.false_eq_true, if_false, State.try_transition_to_writing, State.read_buf,
      position_eq_some_of hp hmin, State.transition_to_writing, Except.map,
      Except.ok.injEq] at h
    exact h.symm

/-- C4 witness: flushing the first line of `"a\nb\n"` leaves `"b\n"` as the
new reading buffer and chains straight back to writing. -/
theorem writing_to_reading_recovers_leftover_witness :
    ((∀ x, x ∈ ([98, 10] : List Nat) → x ≠ newline) →
        State.Writing ⟨[98, 10], 0, 2⟩ = State.Reading [98, 10]) ∧
    (∀ p, ([98, 10] : List Nat).get? p = some newline →
        (∀ q, q < p → ([98, 10] : List Nat).get? q ≠ some newline) →
        State.Writing ⟨[98, 10], 0, 2⟩ = State.Writing ⟨[98, 10], 0, p + 1⟩) ∧
    Connection.run ⟨0, State.Reading []⟩
        [DriverEvent.readable (ReadOutcome.bytes [97, 10, 98, 10]),
         DriverEvent.writable (WriteOutcome.wrote 2)] =
      Except.ok (⟨0, State.Writing ⟨[98, 10], 0, 2⟩⟩, [97, 10]) ∧
    Connection.run ⟨0, State.Reading []⟩
        [DriverEvent.readable (ReadOutcome.bytes [97, 10, 98, 10]),
         DriverEvent.writable (WriteOutcome.wrote 2),
         DriverEvent.writable (WriteOutcome.wrote 2)] =
      Except.ok (⟨0, State.Reading []⟩, [97, 10, 98, 10]) :=
  writing_to_reading_recovers_leftover ⟨[97, 10, 98, 10], 2, 0⟩
    (State.Writing ⟨[98, 10], 0, 2⟩) rfl rfl

/-- C1: over any trace of readiness events and socket outcomes delivered
to one connection (arbitrary chunking, partial writes, would-blocks), the
bytes received equal the bytes written back followed by the still-pending
bytes, in order; when the connection has closed the two are equal; and
every writable unit either ends at a line-terminator boundary or — only
once end-of-stream has been seen — spans the whole remaining buffer. -/
theorem round_trip (tok : Nat) (es : List DriverEvent) (c2 : Connection) (ws : List Nat)
    (h : Connection.run ⟨tok, State.Reading []⟩ es = Except.ok (c2, ws)) :
    received es = ws ++ pending c2.state ∧
    (c2.state.is_closed = true → received es = ws) ∧
    c2.state.lineOk (hasEofEvt es) ∧
    (hasEofEvt es = false → ∀ w, c2.state = State.Writing w →
        (w.buf.take (w.pos + w.limit)).getLast? = some newline) := by
  obtain ⟨-, hpend, hlok⟩ := run_spec h
  have hp : received es = ws ++ pending c2.state := by simpa [pending] using hpend
  have hl : c2.state.lineOk (hasEofEvt es) := by
    have h0 := hlok false trivial
    simpa using h0
  refine ⟨hp, fun hcl => ?_, hl, fun hno w hw => ?_⟩
  · cases hst : c2.state with
    | Closed => rw [hp, hst]; simp [pending]
    | Reading buf => rw [hst] at hcl; simp [State.is_closed] at hcl
    | Writing w => rw [hst] at hcl; simp [State.is_closed] at hcl
  · rw [hw, hno] at hl
    obtain ⟨-, hd⟩ := hl
    rcases hd with h10 | ⟨-, hfalse⟩
    · exact h10
    · exact absurd hfalse (by simp)

set_option maxRecDepth 10000 in
/-- C1 witness: `"hi\n"` read in one chunk and written in one chunk is
echoed in full with nothing pending. -/
theorem round_trip_witness :
    received [DriverEvent.readable (ReadOutcome.bytes [104, 105, 10]),
        DriverEvent.writable (WriteOutcome.wrote 3)] =
      [104, 105, 10] ++ pending (State.Reading []) ∧
    ((State.Reading []).is_closed = true →
      received [DriverEvent.readable (ReadOutcome.bytes [104, 105, 10]),
          DriverEvent.writable (WriteOutcome.wrote 3)] = [104, 105, 10]) ∧
    (State.Reading []).lineOk
      (hasEofEvt [DriverEvent.readable (ReadOutcome.bytes [104, 105, 10]),
        DriverEvent.writable (WriteOutcome.wrote 3)]) ∧
    (hasEofEvt [DriverEvent.readable (ReadOutcome.bytes [104, 105, 10]),
        DriverEvent.writable (WriteOutcome.wrote 3)] = false →
      ∀ w, State.Reading [] = State.Writing w →
        (w.buf.take (w.pos + w.limit)).getLast? = some newline) :=
  round_trip 5
    [DriverEvent.readable (ReadOutcome.bytes [104, 105, 10]),
     DriverEvent.writable (WriteOutcome.wrote 3)]
    ⟨5, State.Reading []⟩ [104, 105, 10] rfl

/-- A server whose 1024 slots are all occupied (tokens 1 to 1024). -/
def fullPong : Pong :=
  ⟨⟨(List.range 1024).map (fun i => some (Connection.new (i + 1)))⟩⟩

set_option maxRecDepth 10000 in
/-- No slot of the full server is free. -/
theorem fullPong_no_free : ∀ x ∈ fullPong.connections.entries, x ≠ none := by
  intro x hx
  simp only [fullPong, List.mem_map] at hx
  obtain ⟨i, -, rfl⟩ := hx
  simp

set_option maxRecDepth 10000 in
/-- C7 counterexample: with all 1024 slots occupied, an accepted connection
is not rejected gracefully — the `unwrap` of the failed insertion panics,
crashing the whole server instead of only turning the new client away. -/
theorem capacity_crash_counterexample :
    fullPong.ready SERVER EventSet.readableSet AcceptOutcome.accepted
        ReadOutcome.wouldBlock WriteOutcome.wouldBlock =
      Except.error "called Option::unwrap() on a None value" := by
  have hfn : firstNone fullPong.connections.entries = none := by
    apply firstNone_none_of
    intro x hx
    simp only [fullPong, List.mem_map] at hx
    obtain ⟨i, -, rfl⟩ := hx
    simp
  simp [Pong.ready, Slab.insert_with, hfn]

/-- C7 amended: when the connection table has no free slot, the insertion
fails (`insert_with` returns no token, the `CapacityExceeded` case) and
the reference accept path panics on its `unwrap`, crashing the whole
server — a crash, not a graceful rejection of the new connection. -/
theorem capacity_exceeded_panics (p : Pong)
    (hfull : ∀ x ∈ p.connections.entries, x ≠ none) (ev : EventSet)
    (rr : ReadOutcome) (wr : WriteOutcome) :
    p.connections.insert_with (fun token => Connection.new token) = none ∧
    p.ready SERVER ev AcceptOutcome.accepted rr wr =
      Except.error "called Option::unwrap() on a None value" := by
  have hfn : firstNone p.connections.entries = none := firstNone_none_of hfull
  constructor
  · simp [Slab.insert_with, hfn]
  · simp [Pong.ready, Slab.insert_with, hfn]

/-- C7 witness: the amended claim instantiated on the fully occupied
server. -/
theorem capacity_exceeded_panics_witness :
    fullPong.connections.insert_with (fun token => Connection.new token) = none ∧
    fullPong.ready SERVER EventSet.writableSet AcceptOutcome.accepted
        ReadOutcome.wouldBlock WriteOutcome.wouldBlock =
      Except.error "called Option::unwrap() on a None value" :=
  capacity_exceeded_panics fullPong fullPong_no_free EventSet.writableSet
    ReadOutcome.wouldBlock WriteOutcome.wouldBlock

end PongServer
